import Mathlib

/-!
Shallow embedding of the stdlib chat-bot action core (`dist/index.js`,
`dist/github.js`) and proofs about it.

Modelling conventions:
- JavaScript strings are modelled as `List Char`.
- JavaScript numbers (embedding coordinates, similarity scores) are modelled
  as `ℚ`; the claims under study depend only on the ordered-field structure,
  not on binary floating point rounding.
- Each regex `String.replace` call of the source is translated to an
  executable function whose semantics (leftmost match, lazy/greedy groups,
  global continuation after the match) follows the JS regex engine; the
  correspondence is documented at each definition.
-/

set_option maxRecDepth 8000

namespace StdlibBot

/-- `startsWith pat s` is true when `pat` is an initial segment of `s`
(helper used to express "the regex literal matches at this position"). -/
def startsWith : List Char → List Char → Bool
  | [], _ => true
  | _ :: _, [] => false
  | p :: ps, c :: cs => p == c && startsWith ps cs

/-- First occurrence of the literal `pat` inside `s`, JS-style: scanning left
to right, returns the text before the match and the text after it.
`none` when `pat` does not occur.  (For the empty pattern this matches at
position 0, as `String.prototype.replace` does.) -/
def findSub (pat : List Char) : List Char → Option (List Char × List Char)
  | [] => if startsWith pat [] then some ([], []) else none
  | c :: cs =>
    if startsWith pat (c :: cs) then some ([], (c :: cs).drop pat.length)
    else
      match findSub pat cs with
      | some (b, a) => some (c :: b, a)
      | none => none

/-- `GetSubstitution` (ECMA-262) specialised to a plain-string search value:
scanning the replacement text left to right, `$$` yields `$`, `$&` the
matched text, `$` followed by a backquote (`\x60`) the text before the
match, `$` followed by an apostrophe (`\x27`) the text after it; every
other `$` — digit references, `$<…>`, a trailing `$` — is copied literally,
because a string search establishes no captures and no named groups. -/
def getSubstitution (matched before after : List Char) : List Char → List Char
  | [] => []
  | c :: r =>
    if c = '$' then
      match r with
      | [] => [c]
      | d :: r2 =>
        if d = '$' then '$' :: getSubstitution matched before after r2
        else if d = '&' then matched ++ getSubstitution matched before after r2
        else if d = '\x60' then before ++ getSubstitution matched before after r2
        else if d = '\x27' then after ++ getSubstitution matched before after r2
        else c :: d :: getSubstitution matched before after r2
    else c :: getSubstitution matched before after r

/-- `str.replace(pat, r)` for a plain-string `pat`: replaces the first
occurrence only, applying `GetSubstitution` to the replacement text (so
`$$`, `$&`, `` $` `` and `$'` inside `r` are interpreted, with the matched
text being `pat` itself); the string is returned unchanged when `pat` is
absent. -/
def replaceFirst (s pat r : List Char) : List Char :=
  match findSub pat s with
  | none => s
  | some (b, a) => b ++ getSubstitution pat b a r ++ a

/-- Global replace of `/op[\s\S]*?cl/g` with the empty string: repeatedly,
the leftmost occurrence of the literal `op` that is followed by a later
occurrence of the literal `cl` begins a match reaching to the first such
`cl`; the match is deleted and scanning resumes after it.  Used for the
license-header, fenced code-block and HTML-comment removal steps of
`compressContent`.  (The guard on empty delimiters is never exercised by
the action's patterns; it only keeps the function total.) -/
def removeDelimited (op cl : List Char) (s : List Char) : List Char :=
  if hne : op = [] ∨ cl = [] then s
  else
    match h1 : findSub op s with
    | none => s
    | some (b, rest) =>
      match h2 : findSub cl rest with
      | none => s
      | some (_, after) => b ++ removeDelimited op cl after
termination_by s.length
decreasing_by
  have hsw : ∀ (p t : List Char), startsWith p t = true → p.length ≤ t.length := by
    intro p
    induction p with
    | nil => intro t _; exact Nat.zero_le _
    | cons x xs ih =>
      intro t ht
      cases t with
      | nil => simp [startsWith] at ht
      | cons y ys =>
        simp only [startsWith, Bool.and_eq_true] at ht
        have := ih ys ht.2
        simp only [List.length_cons]
        omega
  have key : ∀ (p t b a : List Char), findSub p t = some (b, a) →
      a.length + p.length ≤ t.length := by
    intro p t
    induction t with
    | nil =>
      intro b a h
      by_cases hp : startsWith p [] = true
      · have hl : p.length ≤ 0 := hsw p [] hp
        simp only [findSub, hp, if_true, Option.some.injEq, Prod.mk.injEq] at h
        obtain ⟨hb, ha⟩ := h
        subst ha
        simp only [List.length_nil]
        omega
      · simp only [findSub] at h
        rw [if_neg hp] at h
        exact absurd h (by simp)
    | cons c cs ih =>
      intro b a h
      by_cases hp : startsWith p (c :: cs) = true
      · have hl := hsw p (c :: cs) hp
        simp only [findSub, hp, if_true, Option.some.injEq, Prod.mk.injEq] at h
        obtain ⟨-, ha⟩ := h
        subst ha
        simp only [List.length_drop]
        omega
      · simp only [findSub] at h
        rw [if_neg hp] at h
        cases hm : findSub p cs with
        | none => rw [hm] at h; exact absurd h (by simp)
        | some ba =>
          obtain ⟨b', a'⟩ := ba
          rw [hm] at h
          simp only [Option.some.injEq, Prod.mk.injEq] at h
          obtain ⟨-, ha⟩ := h
          subst ha
          have := ih b' a' hm
          simp only [List.length_cons]
          omega
  have hop : op ≠ [] := fun hx => hne (Or.inl hx)
  have h1' := key op s b rest h1
  have h2' := key cl rest _ after h2
  have : 1 ≤ op.length := by
    cases op with
    | nil => exact absurd rfl hop
    | cons x xs => simp
  omega

/-- `text.replace(/\r\n/g, '\n')`: Windows line endings become Unix ones. -/
def normalizeNewlines : List Char → List Char
  | [] => []
  | '\r' :: '\n' :: rest => '\n' :: normalizeNewlines rest
  | c :: rest => c :: normalizeNewlines rest

/-- The opening delimiter of a usage section, `<section class="usage">`. -/
def usageOpenTag : List Char := "<section class=\"usage\">".data

/-- The closing delimiter `</section>`. -/
def usageCloseTag : List Char := "</section>".data

/-- The usage-extraction step
`text.replace(/([\s\S]*?)<section class="usage">([\s\S]*?)<\/section>([\s\S]*)/g, '$2')`.
The lazy first group makes the match begin at position 0 and reach the first
open tag, the lazy second group stops at the first close tag after it, and
the greedy third group swallows the remainder, so a successful match spans
the whole string and is replaced by the interior alone; when no open tag
followed by a close tag exists the text passes through unchanged. -/
def extractUsage (s : List Char) : List Char :=
  match findSub usageOpenTag s with
  | none => s
  | some (_, rest) =>
    match findSub usageCloseTag rest with
    | none => s
    | some (interior, _) => interior

/-- The lazy `.*?\]:` part of the link-definition regex: scan for the
literal `]:` with no intervening line break (`.` does not match `\n`);
returns the text after the `]:`. -/
def scanToCloseBracket : List Char → Option (List Char)
  | [] => none
  | c :: r =>
    if c = '\n' then none
    else if c = ']' ∧ r.head? = some ':' then some r.tail
    else scanToCloseBracket r

/-- The lazy `[\s\S]*?\n` tail of the link-definition regex: drop through
the first line break, returning what follows it. -/
def dropToNewline : List Char → Option (List Char)
  | [] => none
  | c :: r => if c = '\n' then some r else dropToNewline r

/-- `text.replace(/\[.*?\]:[\s\S]*?\n/g, '')`: deletes Markdown
link-reference definition lines.  A match starts at a `[` that is followed
on the same line by `]:` and extends through the first line break after
that `]:`; scanning resumes after the deleted match. -/
def removeLinkDefs : List Char → List Char
  | [] => []
  | c :: rest =>
    if c = '[' then
      match h1 : scanToCloseBracket rest with
      | none => c :: removeLinkDefs rest
      | some t =>
        match h2 : dropToNewline t with
        | none => c :: removeLinkDefs rest
        | some r => removeLinkDefs r
    else c :: removeLinkDefs rest
termination_by s => s.length
decreasing_by
  · simp
  · simp
  · have hscan : ∀ (u v : List Char), scanToCloseBracket u = some v → v.length < u.length := by
      intro u
      induction u with
      | nil => intro v hv; simp [scanToCloseBracket] at hv
      | cons x xs ih =>
        intro v hv
        simp only [scanToCloseBracket] at hv
        by_cases hx1 : x = '\n'
        · rw [if_pos hx1] at hv; exact absurd hv (by simp)
        · rw [if_neg hx1] at hv
          by_cases hx2 : x = ']' ∧ xs.head? = some ':'
          · rw [if_pos hx2] at hv
            simp only [Option.some.injEq] at hv
            subst hv
            have : xs.tail.length ≤ xs.length := by
              cases xs <;> simp
            simp only [List.length_cons]
            omega
          · rw [if_neg hx2] at hv
            have := ih _ hv
            simp only [List.length_cons]
            omega
    have hdrop : ∀ (u v : List Char), dropToNewline u = some v → v.length < u.length := by
      intro u
      induction u with
      | nil => intro v hv; simp [dropToNewline] at hv
      | cons x xs ih =>
        intro v hv
        simp only [dropToNewline] at hv
        by_cases hx : x = '\n'
        · rw [if_pos hx] at hv
          simp only [Option.some.injEq] at hv
          subst hv
          simp
        · rw [if_neg hx] at hv
          have := ih _ hv
          simp only [List.length_cons]
          omega
    have ha := hscan _ t h1
    have hb := hdrop t r h2
    simp only [List.length_cons]
    omega
  · simp

/-- Global replace of a fixed literal with the empty string, e.g.
`text.replace(/<\/section>/g, '')`: every occurrence is deleted, scanning
left to right and resuming after each deleted occurrence. -/
def removeAllSub (pat : List Char) : List Char → List Char
  | [] => []
  | c :: rest =>
    if pat ≠ [] ∧ startsWith pat (c :: rest) = true then
      removeAllSub pat ((c :: rest).drop pat.length)
    else c :: removeAllSub pat rest
termination_by s => s.length
decreasing_by
  · rename_i hcond
    have hp : 1 ≤ pat.length := by
      cases pat with
      | nil => exact absurd rfl hcond.1
      | cons x xs => simp
    simp only [List.length_drop, List.length_cons]
    omega
  · simp

/-- The fixed beginning `<section class="` of the opening-tag regex
`/<section class="[^"]+">/`. -/
def sectionOpenStart : List Char := "<section class=\"".data

/-- Match of `/<section class="[^"]+">/` at the start of `s`: the literal
prefix, then one or more non-quote characters, then `">`.  Returns the text
after the match when it succeeds.  (The greedy `[^"]+` cannot stop before
the first quote, since the next required character is a quote.) -/
def matchSectionOpenAt (s : List Char) : Option (List Char) :=
  if startsWith sectionOpenStart s then
    if ((s.drop sectionOpenStart.length).takeWhile (fun c => !(c == '"'))).length = 0 then
      none
    else if startsWith "\x22>".data ((s.drop sectionOpenStart.length).dropWhile (fun c => !(c == '"'))) then
      some (((s.drop sectionOpenStart.length).dropWhile (fun c => !(c == '"'))).drop 2)
    else none
  else none

/-- `text.replace(/<section class="[^"]+">/g, '')`: deletes every opening
section tag, resuming after each deleted match. -/
def removeSectionOpen : List Char → List Char
  | [] => []
  | c :: rest =>
    match h : matchSectionOpenAt (c :: rest) with
    | some r => removeSectionOpen r
    | none => c :: removeSectionOpen rest
termination_by s => s.length
decreasing_by
  · have hlen : ∀ (u v : List Char), matchSectionOpenAt u = some v → v.length < u.length := by
      intro u v hu
      simp only [matchSectionOpenAt] at hu
      by_cases hs : startsWith sectionOpenStart u = true
      · rw [if_pos hs] at hu
        by_cases hz : ((u.drop sectionOpenStart.length).takeWhile (fun c => !(c == '"'))).length = 0
        · rw [if_pos hz] at hu
          exact absurd hu (by simp)
        · rw [if_neg hz] at hu
          by_cases hw : startsWith "\x22>".data
              ((u.drop sectionOpenStart.length).dropWhile (fun c => !(c == '"'))) = true
          · rw [if_pos hw] at hu
            simp only [Option.some.injEq] at hu
            subst hu
            have hsplit : ((u.drop sectionOpenStart.length).takeWhile (fun c => !(c == '"'))).length
                + ((u.drop sectionOpenStart.length).dropWhile (fun c => !(c == '"'))).length
                = (u.drop sectionOpenStart.length).length := by
              rw [← List.length_append, List.takeWhile_append_dropWhile]
            have hss : sectionOpenStart.length = 16 := by decide
            have hdl : (u.drop sectionOpenStart.length).length = u.length - 16 := by
              rw [List.length_drop, hss]
            have hdv : (((u.drop sectionOpenStart.length).dropWhile (fun c => !(c == '"'))).drop 2).length
                = ((u.drop sectionOpenStart.length).dropWhile (fun c => !(c == '"'))).length - 2 := by
              rw [List.length_drop]
            omega
          · rw [if_neg hw] at hu
            exact absurd hu (by simp)
      · rw [if_neg hs] at hu
        exact absurd hu (by simp)
    have hr := hlen _ r h
    simp only [List.length_cons] at hr ⊢
    omega
  · simp

/-- `text.replace(/\n{3,}/g, '\n\n')`: every maximal run of three or more
line breaks is collapsed to exactly two; runs of one or two are kept. -/
def collapseNewlines : List Char → List Char
  | [] => []
  | c :: rest =>
    if c = '\n' then
      (if 3 ≤ 1 + (rest.takeWhile (fun d => d == '\n')).length then ['\n', '\n']
       else List.replicate (1 + (rest.takeWhile (fun d => d == '\n')).length) '\n') ++
        collapseNewlines (rest.dropWhile (fun d => d == '\n'))
    else c :: collapseNewlines rest
termination_by s => s.length
decreasing_by
  · have hw : ∀ (l : List Char) (p : Char → Bool), (l.dropWhile p).length ≤ l.length :=
      fun l p => (List.dropWhile_sublist p).length_le
    simp only [List.length_cons]
    exact Nat.lt_succ_of_le (hw _ _)
  · simp

/-- `text.replace(/^\n+|\n+$/g, '')`: removes the leading run and the
trailing run of line breaks. -/
def trimNewlines (s : List Char) : List Char :=
  ((s.dropWhile (fun c => c == '\n')).reverse.dropWhile (fun c => c == '\n')).reverse

/-- `text.replace(/ {2,}/g, ' ')` (and the analogous `/\t{2,}/g` step):
every maximal run of the character `ch` becomes a single `ch`; this agrees
with the regex, which leaves single occurrences alone and shrinks longer
runs to one. -/
def collapseRunsOf (ch : Char) : List Char → List Char
  | [] => []
  | c :: rest =>
    if c = ch then c :: collapseRunsOf ch (rest.dropWhile (fun d => d == ch))
    else c :: collapseRunsOf ch rest
termination_by s => s.length
decreasing_by
  · have hw : ∀ (l : List Char) (p : Char → Bool), (l.dropWhile p).length ≤ l.length :=
      fun l p => (List.dropWhile_sublist p).length_le
    simp only [List.length_cons]
    exact Nat.lt_succ_of_le (hw _ _)
  · simp

/-- The license-header opening literal `/**\n * @license` of
`/\/\*\*\n \* @license[\s\S]*?\n \*\/\n/gm`. -/
def licenseOpen : List Char := "/**\n * @license".data

/-- The license-header closing literal `\n */\n`. -/
def licenseClose : List Char := "\n */\n".data

/-- The fenced code-block delimiter of `/```[\s\S]*?```/g`. -/
def codeFence : List Char := "```".data

/-- The HTML comment delimiters of `/<!--([\s\S]*?)-->/g`. -/
def commentOpen : List Char := "<!--".data

/-- The HTML comment closing delimiter. -/
def commentClose : List Char := "-->".data

/-- `compressContent(text, removeCodeBlocks)` from `dist/index.js`
(the openai module): the ordered transformation pipeline of the text
sanitizer.  Each step is the translation of the corresponding
`text.replace` call, in source order. -/
def compressContent (text : List Char) (removeCodeBlocks : Bool) : List Char :=
  let t1 := removeDelimited licenseOpen licenseClose text
  let t2 := normalizeNewlines t1
  let t3 := extractUsage t2
  let t4 := if removeCodeBlocks then removeDelimited codeFence codeFence t3 else t3
  let t5 := removeLinkDefs t4
  let t6 := removeDelimited commentOpen commentClose t5
  let t7 := removeAllSub usageCloseTag t6
  let t8 := removeSectionOpen t7
  let t9 := collapseNewlines t8
  let t10 := trimNewlines t9
  let t11 := t10.map (fun c => if c = '\n' then ' ' else c)
  let t12 := collapseRunsOf ' ' t11
  collapseRunsOf '\t' t12

/-- The disclaimer heading recognized by `stripDisclaimer`. -/
def disclaimerHeading : List Char := "### Disclaimer".data

/-- The text appended by `appendDisclaimer` (openai module of
`dist/index.js`): two line breaks, the heading and the two bullet points. -/
def disclaimerTail : List Char := ("\n\n### Disclaimer\n\n-   This answer was generated with the help of AI and is not guaranteed to be correct. We will review the answer and update it if necessary.\n-   You can also ask follow-up questions to clarify the answer or request additional information by leaving a comment on this issue starting with `/ask`.").data

/-- `appendDisclaimer(str)`: `str + '\n\n### Disclaimer\n\n-   ...'`. -/
def appendDisclaimer (str : List Char) : List Char := str ++ disclaimerTail

/-- `stripDisclaimer(str)` from `dist/github.js`:
`str.replace(/### Disclaimer[\s\S]+$/, '')`.  The match starts at the
leftmost occurrence of the heading that is followed by at least one
character (`[\s\S]+` is one-or-more) and reaches the end of the string;
everything from that heading on is removed.  Without such an occurrence the
string is unchanged. -/
def stripDisclaimer : List Char → List Char
  | [] => []
  | c :: cs =>
    if startsWith disclaimerHeading (c :: cs) = true ∧
        disclaimerHeading.length < (c :: cs).length then []
    else c :: stripDisclaimer cs

/-- The author of a previous comment, as returned by the GitHub
collaborator (`{ author: { login } }`). -/
structure Author where
  login : List Char
deriving DecidableEq

/-- A conversation turn: `{ author: { login }, body }`. -/
structure Comment where
  author : Author
  body : List Char
deriving DecidableEq

/-- `generateHistory(comments)` from `dist/github.js`: for each comment, in
order, append `author.login + ': ' + stripDisclaimer(body)` and then a line
break. -/
def generateHistory (comments : List Comment) : List Char :=
  comments.foldl
    (fun history comment =>
      history ++ comment.author.login ++ ": ".data ++ stripDisclaimer comment.body ++ "\n".data)
    []

/-- A precomputed documentation record of `embeddings.json`:
`{ package, content, embedding }`. -/
structure Embedding where
  package : List Char
  content : List Char
  embedding : List ℚ
deriving DecidableEq

/-- A `{ embedding, similarity }` pair built by `findMostSimilar` (the
spec's ScoredCandidate). -/
structure ScoredCandidate where
  embedding : Embedding
  similarity : ℚ
deriving DecidableEq

/-- `vectorSimilarity(x, y)`: the dot-product loop
`for (i = 0; i < x.length; i++) sum += x[i] * y[i]`.  (Out-of-range reads,
a caller error per the spec, are modelled as 0.) -/
def vectorSimilarity (x y : List ℚ) : ℚ :=
  (List.range x.length).foldl (fun sum i => sum + x.getD i 0 * y.getD i 0) 0

/-- The descending-score ordering used by
`similarities.sort((a, b) => b.similarity - a.similarity)`. -/
def scoreOrder (a b : ScoredCandidate) : Prop := b.similarity ≤ a.similarity

instance : DecidableRel scoreOrder := fun a b => inferInstanceAs (Decidable (_ ≤ _))

instance : IsTotal ScoredCandidate scoreOrder :=
  ⟨fun a b => (le_total b.similarity a.similarity).imp (fun h => h) (fun h => h)⟩

instance : IsTrans ScoredCandidate scoreOrder :=
  ⟨fun _ _ _ h1 h2 => le_trans h2 h1⟩

/-- `findMostSimilar(embedding, allEmbeddings, topN = 3, threshold = 0.6)`
from the openai module: score every corpus record, sort the scored pairs by
descending similarity, keep those strictly above the threshold, take the
first `topN` and return their records.  `Array.prototype.sort` is required
to be stable and the comparator is the total preorder on scores, so its
result is modelled by the stable `List.insertionSort` with `scoreOrder`
(on score-equal pairs the earlier element stays first, which pins down the
output of any stable sort). -/
def findMostSimilar (embedding : List ℚ) (allEmbeddings : List Embedding)
    (topN : ℕ) (threshold : ℚ) : List Embedding :=
  let similarities := allEmbeddings.map
    (fun e => ScoredCandidate.mk e (vectorSimilarity embedding e.embedding))
  let sorted := similarities.insertionSort scoreOrder
  ((sorted.filter (fun x => decide (threshold < x.similarity))).take topN).map
    (fun x => x.embedding)

/-- The fixed instruction template `PROMPT_TEMPLATE` of the openai module. -/
def PROMPT_TEMPLATE : List Char := ("I am a highly intelligent question answering bot for programming questions in JavaScript. If you ask me a question that is rooted in truth, I will give you the answer. If you ask me a question that is nonsense, trickery, is not related to the stdlib-js / @stdlib project for JavaScript and Node.js, or has no clear answer, I will respond with \"Unknown.\". If the requested functionality is not available or cannot be implemented using stdlib, I will respond with \"Not yet implemented.\". I will include example code if relevant to the question, formatted as GitHub Flavored Markdown code blocks. After the answer, I will provide a list of Markdown links to the relevant documentation on GitHub under a ## References heading followed by a list of Markdown link definitions for all the links in the answer.\n\nI will answer below question by referencing the following packages from the project:\n\x7b\x7bfiles\x7d\x7d\n\n\x7b\x7bhistory\x7d\x7d\nQuestion: \x7b\x7bquestion\x7d\x7d\nAnswer:").data

/-- The files placeholder literal. -/
def filesPlaceholder : List Char := "\x7b\x7bfiles\x7d\x7d".data

/-- The history placeholder literal. -/
def historyPlaceholder : List Char := "\x7b\x7bhistory\x7d\x7d".data

/-- The question placeholder literal. -/
def questionPlaceholder : List Char := "\x7b\x7bquestion\x7d\x7d".data

/-- The rendering of the files section:
`mostSimilar.map(x => `Package: ${x.package}\nText: ${compressContent(x.content)}`).join('\n\n')`
(`compressContent` is called with its default `removeCodeBlocks = true`). -/
def filesSection (mostSimilar : List Embedding) : List Char :=
  List.intercalate "\n\n".data
    (mostSimilar.map
      (fun x => "Package: ".data ++ x.package ++ "\nText: ".data ++ compressContent x.content true))

/-- `assemblePrompt(question, mostSimilar, history)` (with `history` already
a string): reassigns `history = compressContent(history, false)`, then
performs the three successive `String.replace` calls on the template, each
replacing the first occurrence of its placeholder in the then-current
string; an empty history renders as the empty string, a non-empty one as
`'History:\n' + history + '\n'`. -/
def assemblePrompt (question : List Char) (mostSimilar : List Embedding)
    (history : List Char) : List Char :=
  let h := compressContent history false
  replaceFirst
    (replaceFirst
      (replaceFirst PROMPT_TEMPLATE filesPlaceholder (filesSection mostSimilar))
      historyPlaceholder
      (if h = [] then [] else "History:\n".data ++ h ++ "\n".data))
    questionPlaceholder question

/-- The GitHub event kinds distinguished by `main` (`context.eventName`);
`other` stands for any unsupported kind. -/
inductive EventName
  | issues
  | issue_comment
  | discussion
  | discussion_comment
  | other
deriving DecidableEq

/-- The event payload bodies `main` can read. -/
structure Payload where
  issueBody : List Char
  commentBody : List Char
  discussionBody : List Char
deriving DecidableEq

/-- `extractQuestion()`: the switch on `context.eventName`; unsupported
events fall through and yield `undefined` (modelled as `none`). -/
def extractQuestion (ev : EventName) (p : Payload) : Option (List Char) :=
  match ev with
  | .discussion_comment => some p.commentBody
  | .issue_comment => some p.commentBody
  | .discussion => some p.discussionBody
  | .issues => some p.issueBody
  | .other => none

/-- Outcomes of the external collaborators for one invocation.  Each field
is the result of the corresponding awaited call; an `Except.error` is a
rejected promise.  The two posting call sites per destination (answer body
and apology body) are separate fields because they are distinct calls. -/
structure Oracles where
  corpusLoad : Except (List Char) (List Embedding)
  embed : Except (List Char) (List ℚ)
  issueComments : Except (List Char) (List Comment)
  discussionComments : Except (List Char) (List Comment)
  completion : Except (List Char) (List Char)
  postIssueAnswer : Except (List Char) Unit
  postIssueApology : Except (List Char) Unit
  postDiscussionAnswer : Except (List Char) Unit
  postDiscussionApology : Except (List Char) Unit

/-- The `TypeError` raised by `compressContent(undefined, false)` inside
`assemblePrompt` when the conversation history was never assigned. -/
def typeErrorMsg : List Char :=
  "TypeError: Cannot read properties of undefined (reading 'replace')".data

/-- `assemblePrompt` as called from `main`: the `history` argument may be
`undefined` (`none`), in which case `compressContent(history, false)`
throws a `TypeError` before anything else happens.  A missing question
(unsupported event) is coerced to the string `"undefined"` by
`String.replace`. -/
def assemblePromptJS (question : Option (List Char)) (mostSimilar : List Embedding)
    (history : Option (List Char)) : Except (List Char) (List Char) :=
  match history with
  | none => .error typeErrorMsg
  | some h => .ok (assemblePrompt (question.getD "undefined".data) mostSimilar h)

/-- `generateAnswer(prompt)`: awaits the external completion and appends
the disclaimer to its text.  The completion outcome is the oracle's;
the prompt value does not influence whether the call succeeds. -/
def generateAnswer (o : Oracles) (_prompt : List Char) : Except (List Char) (List Char) :=
  match o.completion with
  | .ok text => .ok (appendDisclaimer text)
  | .error e => .error e

/-- The body of the `try` block of `main`, up to and including
`generateAnswer`: create the question embedding, rank the corpus (with the
source's default `topN = 3`, `threshold = 0.6`), fetch and compress the
comment history for the two comment events (plain `issues` / `discussion`
events leave `conversationHistory` undefined), assemble the prompt and
generate the answer. -/
def pipeline (ev : EventName) (o : Oracles) (corpus : List Embedding) (p : Payload) :
    Except (List Char) (List Char) := do
  let embedding ← o.embed
  let mostSimilar := findMostSimilar embedding corpus 3 (6/10)
  let history : Option (List Char) ←
    match ev with
    | .issue_comment => do
        let comments ← o.issueComments
        pure (some (generateHistory comments))
    | .discussion_comment => do
        let comments ← o.discussionComments
        pure (some (generateHistory comments))
    | _ => pure none
  let prompt ← assemblePromptJS (extractQuestion ev p) mostSimilar history
  generateAnswer o prompt

/-- A posting destination. -/
inductive Dest
  | issue
  | discussion
deriving DecidableEq

/-- Observable actions of one run, in order: a comment that actually landed
at a destination, a `core.error` log, a `core.setFailed` call. -/
inductive Action
  | post (dest : Dest) (body : List Char)
  | logError (msg : List Char)
  | markFailed (msg : List Char)
deriving DecidableEq

/-- The outcome of one invocation of `main`: the recorded actions and, when
an exception escaped `main` itself (promise rejection with no handler),
its message. -/
structure RunResult where
  trace : List Action
  mainError : Option (List Char)
deriving DecidableEq

/-- The fixed apology body posted on the failure path. -/
def apologyBody : List Char := "Sorry, I was not able to answer your question.".data

/-- The log message of the `default` switch branch. -/
def unsupportedMsg : List Char := "Unsupported event name".data

/-- The `catch` block of `main`: post the apology to the destination of the
event (awaited for issues, fire-and-forget for discussions), then log the
original error and mark the run failed.  If the awaited apology post itself
rejects, the exception escapes `main`: nothing is logged and the run is not
marked failed.  An unawaited discussion post lands only when the external
call succeeds, and its rejection is invisible to `main`. -/
def catchActions (ev : EventName) (o : Oracles) (e : List Char) : RunResult :=
  match ev with
  | .issues | .issue_comment =>
    match o.postIssueApology with
    | .ok _ => ⟨[.post .issue apologyBody, .logError e, .markFailed e], none⟩
    | .error e2 => ⟨[], some e2⟩
  | .discussion | .discussion_comment =>
    ⟨(match o.postDiscussionApology with
      | .ok _ => [Action.post .discussion apologyBody]
      | .error _ => []) ++ [.logError e, .markFailed e], none⟩
  | .other =>
    ⟨[.logError unsupportedMsg, .logError e, .markFailed e], none⟩

/-- `main()` from `dist/index.js`.  The corpus file is read and parsed
before the `try` block, so a failure there escapes `main` directly.  On
pipeline success the answer is posted: awaited `createComment` for issue
destinations (a rejection is caught and handled by the `catch` block),
un-awaited `addDiscussionComment` for discussion destinations (a rejection
changes nothing in `main`); unsupported events only log.  On pipeline
failure the `catch` block runs. -/
def main (ev : EventName) (o : Oracles) (p : Payload) : RunResult :=
  match o.corpusLoad with
  | .error e => ⟨[], some e⟩
  | .ok corpus =>
    match pipeline ev o corpus p with
    | .ok answer =>
      match ev with
      | .issues | .issue_comment =>
        match o.postIssueAnswer with
        | .ok _ => ⟨[.post .issue answer], none⟩
        | .error e => catchActions ev o e
      | .discussion | .discussion_comment =>
        ⟨(match o.postDiscussionAnswer with
          | .ok _ => [Action.post .discussion answer]
          | .error _ => []), none⟩
      | .other => ⟨[.logError unsupportedMsg], none⟩
    | .error e => catchActions ev o e

/-- The text of `PROMPT_TEMPLATE` before the files placeholder. -/
def promptPrefix : List Char := ("I am a highly intelligent question answering bot for programming questions in JavaScript. If you ask me a question that is rooted in truth, I will give you the answer. If you ask me a question that is nonsense, trickery, is not related to the stdlib-js / @stdlib project for JavaScript and Node.js, or has no clear answer, I will respond with \"Unknown.\". If the requested functionality is not available or cannot be implemented using stdlib, I will respond with \"Not yet implemented.\". I will include example code if relevant to the question, formatted as GitHub Flavored Markdown code blocks. After the answer, I will provide a list of Markdown links to the relevant documentation on GitHub under a ## References heading followed by a list of Markdown link definitions for all the links in the answer.\n\nI will answer below question by referencing the following packages from the project:\n").data

/-- Modelled from the spec (§4.4 Prompt Assembler): "Start from a fixed
instruction template containing three placeholders …  only the three
template placeholders of the fixed instruction template are replaced",
i.e. the three placeholder sites of the template itself are filled and
nothing else is touched.  Used to compare the source's sequential
`String.replace` chain against the spec's described behaviour. -/
def assemblePromptSpec (question : List Char) (mostSimilar : List Embedding)
    (history : List Char) : List Char :=
  let h := compressContent history false
  promptPrefix ++ filesSection mostSimilar ++ "\n\n".data ++
    (if h = [] then [] else "History:\n".data ++ h ++ "\n".data) ++
    "\nQuestion: ".data ++ question ++ "\nAnswer:".data

/-- The destination an event kind posts to (issue destinations for
`issues` / `issue_comment`, discussion destinations for the other two). -/
def destOf (ev : EventName) : Dest :=
  match ev with
  | .issues | .issue_comment => .issue
  | _ => .discussion

theorem startsWith_iff (p s : List Char) : startsWith p s = true ↔ ∃ t, s = p ++ t := by
  induction p generalizing s with
  | nil => simp [startsWith]
  | cons x xs ih =>
    cases s with
    | nil =>
      simp only [startsWith, Bool.false_eq_true, false_iff]
      rintro ⟨t, ht⟩
      exact absurd ht (by simp)
    | cons c cs =>
      simp only [startsWith, Bool.and_eq_true, beq_iff_eq, ih]
      constructor
      · rintro ⟨rfl, t, rfl⟩
        exact ⟨t, rfl⟩
      · rintro ⟨t, ht⟩
        simp only [List.cons_append, List.cons.injEq] at ht
        exact ⟨ht.1.symm, t, ht.2⟩

theorem findSub_sound {pat : List Char} :
    ∀ {s b a : List Char}, findSub pat s = some (b, a) → s = b ++ pat ++ a := by
  intro s
  induction s with
  | nil =>
    intro b a h
    by_cases hp : startsWith pat [] = true
    · obtain ⟨t, ht⟩ := (startsWith_iff _ _).mp hp
      obtain ⟨hpat, -⟩ := List.append_eq_nil.mp ht.symm
      simp only [findSub, hp, if_true, Option.some.injEq, Prod.mk.injEq] at h
      obtain ⟨hb, ha⟩ := h
      subst hb; subst ha; subst hpat
      rfl
    · simp only [findSub] at h
      rw [if_neg hp] at h
      exact absurd h (by simp)
  | cons c cs ih =>
    intro b a h
    by_cases hp : startsWith pat (c :: cs) = true
    · obtain ⟨t, ht⟩ := (startsWith_iff _ _).mp hp
      simp only [findSub, hp, if_true, Option.some.injEq, Prod.mk.injEq] at h
      obtain ⟨hb, ha⟩ := h
      subst hb
      subst ha
      rw [ht, List.nil_append, List.drop_left]
    · simp only [findSub] at h
      rw [if_neg hp] at h
      cases hm : findSub pat cs with
      | none => rw [hm] at h; exact absurd h (by simp)
      | some ba =>
        obtain ⟨b', a'⟩ := ba
        rw [hm] at h
        simp only [Option.some.injEq, Prod.mk.injEq] at h
        obtain ⟨hb, ha⟩ := h
        subst hb
        subst ha
        rw [ih hm]
        rfl

theorem findSub_at_head {pat : List Char} (hp : pat ≠ []) (y : List Char) :
    findSub pat (pat ++ y) = some ([], y) := by
  cases pat with
  | nil => exact absurd rfl hp
  | cons p ps =>
    have hsw : startsWith (p :: ps) ((p :: ps) ++ y) = true :=
      (startsWith_iff _ _).mpr ⟨y, rfl⟩
    show findSub (p :: ps) (p :: (ps ++ y)) = some ([], y)
    simp only [findSub]
    rw [if_pos (by simpa using hsw)]
    simp [List.drop_left]

theorem findSub_leftmost {pat : List Char} (hp : pat ≠ []) :
    ∀ (x y : List Char), ¬ pat <:+: (x ++ pat).dropLast →
      findSub pat (x ++ pat ++ y) = some (x, y) := by
  intro x
  induction x with
  | nil =>
    intro y _
    simpa using findSub_at_head hp y
  | cons c cs ih =>
    intro y h1
    have hlen : 1 ≤ pat.length := by
      cases pat with
      | nil => exact absurd rfl hp
      | cons a as => simp
    have hnp : ¬ startsWith pat (c :: (cs ++ pat ++ y)) = true := by
      intro hsw
      apply h1
      obtain ⟨t, ht⟩ := (startsWith_iff _ _).mp hsw
      have hpfx : pat <+: ((c :: cs) ++ pat) := by
        rw [List.prefix_iff_eq_take]
        have h2 : pat = ((c :: cs) ++ pat ++ y).take pat.length := by
          rw [show (c :: cs) ++ pat ++ y = c :: (cs ++ pat ++ y) by simp, ht]
          simp
        calc pat = ((c :: cs) ++ pat ++ y).take pat.length := h2
          _ = (((c :: cs) ++ pat) ++ y).take pat.length := by simp
          _ = ((c :: cs) ++ pat).take pat.length := by
              rw [List.take_append_of_le_length]
              simp only [List.length_append, List.length_cons]
              omega
      have hpfx2 : pat <+: ((c :: cs) ++ pat).dropLast := by
        rw [List.dropLast_eq_take]
        rw [List.prefix_iff_eq_take] at hpfx ⊢
        rw [List.take_take] at *
        have hmin : min pat.length (((c :: cs) ++ pat).length - 1) = pat.length := by
          simp only [List.length_append, List.length_cons]
          omega
        rw [hmin]
        exact hpfx
      exact hpfx2.isInfix
    have harg : (c :: cs) ++ pat ++ y = c :: (cs ++ pat ++ y) := by simp
    rw [harg]
    simp only [findSub]
    rw [if_neg hnp]
    have hrec := ih y (by
      intro hin
      apply h1
      have hne : cs ++ pat ≠ [] := by
        cases pat with
        | nil => exact absurd rfl hp
        | cons a as => simp
      have : ((c :: cs) ++ pat).dropLast = c :: (cs ++ pat).dropLast := by
        rw [List.cons_append, List.dropLast_cons_of_ne_nil hne]
      rw [this]
      exact List.infix_cons hin)
    rw [hrec]

theorem findSub_skip {pat : List Char} {ch : Char} (hx : pat.head? = some ch) :
    ∀ (x y : List Char), ch ∉ x →
      findSub pat (x ++ y) = (findSub pat y).map (fun ba => (x ++ ba.1, ba.2)) := by
  intro x
  induction x with
  | nil =>
    intro y _
    simp only [List.nil_append]
    cases findSub pat y with
    | none => simp
    | some ba => simp
  | cons c cs ih =>
    intro y hch
    obtain ⟨p, pt, rfl⟩ : ∃ p pt, pat = p :: pt := by
      cases pat with
      | nil => simp at hx
      | cons p pt => exact ⟨p, pt, rfl⟩
    have hpc : p = ch := by simpa using hx
    subst hpc
    have hnp : ¬ startsWith (p :: pt) (c :: (cs ++ y)) = true := by
      intro hsw
      obtain ⟨t, ht⟩ := (startsWith_iff _ _).mp hsw
      simp only [List.cons_append, List.cons.injEq] at ht
      exact hch (by simp [ht.1])
    have harg : (c :: cs) ++ y = c :: (cs ++ y) := by simp
    rw [harg]
    simp only [findSub]
    rw [if_neg hnp]
    rw [ih y (fun hmem => hch (List.mem_cons_of_mem c hmem))]
    cases findSub (p :: pt) y with
    | none => simp
    | some ba => simp

/-- C6: the sanitizer's usage-extraction step is exhaustive and exclusive:
when the text decomposes as `a ++ open ++ b ++ close ++ c` with the open
marker at its first occurrence (no occurrence starts earlier, which is what
the `dropLast` hypothesis states) and `close` the first close marker after
it, the whole text is replaced by the interior `b` alone — everything
before the open marker and after the close marker is discarded, so at most
one usage region survives; when no open-marker-then-close-marker region
exists, the text passes through this step unchanged. -/
theorem extractUsage_usage_region_spec :
    (∀ a b c : List Char,
      ¬ usageOpenTag <:+: (a ++ usageOpenTag).dropLast →
      ¬ usageCloseTag <:+: (b ++ usageCloseTag).dropLast →
      extractUsage (a ++ usageOpenTag ++ b ++ usageCloseTag ++ c) = b) ∧
    (∀ s : List Char,
      (¬ ∃ a b c : List Char, s = a ++ usageOpenTag ++ b ++ usageCloseTag ++ c) →
      extractUsage s = s) := by
  constructor
  · intro a b c h1 h2
    have hne : usageOpenTag ≠ [] := by decide
    have hne2 : usageCloseTag ≠ [] := by decide
    have ho := findSub_leftmost hne a (b ++ usageCloseTag ++ c) h1
    have hc := findSub_leftmost hne2 b c h2
    have harg : a ++ usageOpenTag ++ b ++ usageCloseTag ++ c
        = a ++ usageOpenTag ++ (b ++ usageCloseTag ++ c) := by simp
    rw [harg]
    simp only [extractUsage, ho, hc]
  · intro s hno
    cases h1 : findSub usageOpenTag s with
    | none => simp [extractUsage, h1]
    | some ar =>
      obtain ⟨a, rest⟩ := ar
      cases h2 : findSub usageCloseTag rest with
      | none => simp [extractUsage, h1, h2]
      | some bc =>
        obtain ⟨b, c'⟩ := bc
        refine absurd ⟨a, b, c', ?_⟩ hno
        have e1 := findSub_sound h1
        have e2 := findSub_sound h2
        rw [e1, e2]
        simp

/-- C6 witness: a concrete instantiation of the region case. -/
theorem extractUsage_usage_region_spec_witness :
    extractUsage ("A".data ++ usageOpenTag ++ "INT".data ++ usageCloseTag ++ "B".data)
      = "INT".data :=
  extractUsage_usage_region_spec.1 "A".data "INT".data "B".data (by decide) (by decide)

theorem head_dropNl (l : List Char) :
    (l.dropWhile (fun d => d == '\n')).head? ≠ some '\n' := by
  induction l with
  | nil => simp
  | cons x xs ih =>
    rw [List.dropWhile_cons]
    by_cases hx : x = '\n'
    · simp only [hx, beq_self_eq_true, if_true]
      exact ih
    · have : (x == '\n') = false := by simpa using hx
      simp only [this, Bool.false_eq_true, if_false, List.head?_cons]
      intro hcontra
      exact hx (by simpa using hcontra)

theorem takeWhile_nil_of_headNl {l : List Char} (hl : l.head? ≠ some '\n') :
    l.takeWhile (fun d => d == '\n') = [] ∧ l.dropWhile (fun d => d == '\n') = l := by
  cases l with
  | nil => simp
  | cons x xs =>
    have hx : x ≠ '\n' := fun h => hl (by simp [h])
    have hb : (x == '\n') = false := by simpa using hx
    rw [List.takeWhile_cons, List.dropWhile_cons]
    simp [hb]

theorem collapseNewlines_head {l : List Char} (hl : l.head? ≠ some '\n') :
    (collapseNewlines l).head? ≠ some '\n' := by
  cases l with
  | nil => simp [collapseNewlines]
  | cons c cs =>
    have hc : c ≠ '\n' := fun h => hl (by simp [h])
    simp only [collapseNewlines, hc, if_false]
    intro hcontra
    exact hc (by simpa using hcontra)

theorem collapseNewlines_replicate_append {m : ℕ} (h1 : 1 ≤ m) (h2 : m ≤ 2)
    {l : List Char} (hl : l.head? ≠ some '\n') :
    collapseNewlines (List.replicate m '\n' ++ l)
      = List.replicate m '\n' ++ collapseNewlines l := by
  obtain ⟨htw, hdw⟩ := takeWhile_nil_of_headNl hl
  match m, h1, h2 with
  | 1, _, _ =>
    show collapseNewlines ('\n' :: l) = '\n' :: collapseNewlines l
    simp only [collapseNewlines, if_true, htw, hdw, List.length_nil]
    norm_num
  | 2, _, _ =>
    show collapseNewlines ('\n' :: '\n' :: l) = '\n' :: '\n' :: collapseNewlines l
    have htw2 : ('\n' :: l).takeWhile (fun d => d == '\n') = ['\n'] := by
      rw [List.takeWhile_cons]
      simp [htw]
    have hdw2 : ('\n' :: l).dropWhile (fun d => d == '\n') = l := by
      rw [List.dropWhile_cons]
      simp [hdw]
    simp only [collapseNewlines, if_true, htw2, hdw2, List.length_cons, List.length_nil]
    norm_num
    rfl

/-- C9: the whitespace-collapsing step of the sanitizer (three or more
consecutive line breaks become exactly two) is idempotent: applying it
twice yields the same result as applying it once. -/
theorem collapseNewlines_idempotent :
    ∀ s : List Char, collapseNewlines (collapseNewlines s) = collapseNewlines s
  | [] => by simp [collapseNewlines]
  | c :: rest => by
    by_cases hc : c = '\n'
    · subst hc
      have hd := head_dropNl rest
      have hcd := collapseNewlines_head hd
      have hrec := collapseNewlines_idempotent (rest.dropWhile (fun d => d == '\n'))
      by_cases h3 : 3 ≤ 1 + (rest.takeWhile (fun d => d == '\n')).length
      · have hunf : collapseNewlines ('\n' :: rest)
            = List.replicate 2 '\n' ++ collapseNewlines (rest.dropWhile (fun d => d == '\n')) := by
          simp only [collapseNewlines, if_true, h3, if_pos]
          rfl
        rw [hunf, collapseNewlines_replicate_append (by omega) (by omega) hcd, hrec]
      · have hk2 : 1 + (rest.takeWhile (fun d => d == '\n')).length ≤ 2 := by omega
        have hunf : collapseNewlines ('\n' :: rest)
            = List.replicate (1 + (rest.takeWhile (fun d => d == '\n')).length) '\n'
              ++ collapseNewlines (rest.dropWhile (fun d => d == '\n')) := by
          simp only [collapseNewlines, if_true, h3, if_neg, if_false]
        rw [hunf, collapseNewlines_replicate_append (by omega) hk2 hcd, hrec]
    · have h1 : collapseNewlines (c :: rest) = c :: collapseNewlines rest := by
        simp only [collapseNewlines, hc, if_false]
      have h2 : collapseNewlines (c :: collapseNewlines rest)
          = c :: collapseNewlines (collapseNewlines rest) := by
        simp only [collapseNewlines, hc, if_false]
      rw [h1, h2, collapseNewlines_idempotent rest]
termination_by s => s.length
decreasing_by
  · have : (rest.dropWhile (fun d => d == '\n')).length ≤ rest.length :=
      (List.dropWhile_sublist _).length_le
    simp only [List.length_cons]
    omega
  · simp

theorem head?_take_pos {l : List Char} {k : ℕ} (hk : 1 ≤ k) :
    (l.take k).head? = l.head? := by
  cases l with
  | nil => simp
  | cons a as =>
    match k, hk with
    | j + 1, _ => simp

/-- C4 counterexample: the claimed round-trip `stripDisclaimer
(appendDisclaimer x) = x` fails already at `x = "Hi"`, a string that does
not contain the disclaimer heading: the strip step removes the heading and
everything after it but keeps the two line breaks the finalizer inserted
before the heading, so the round trip returns `"Hi\n\n"`. -/
theorem strip_append_roundtrip_counterexample :
    ¬ disclaimerHeading <:+: "Hi".data ∧
      stripDisclaimer (appendDisclaimer "Hi".data) ≠ "Hi".data ∧
      stripDisclaimer (appendDisclaimer "Hi".data) = "Hi\n\n".data := by
  refine ⟨by decide, by decide, by decide⟩

/-- C4 (amended): for every string `x` not containing the disclaimer
heading, `stripDisclaimer (appendDisclaimer x)` equals `x ++ "\n\n"` — the
original string followed by the two line breaks that `appendDisclaimer`
inserted before the heading (the regex match starts at the heading itself,
so the separator survives the strip). -/
theorem strip_append_roundtrip_amended (x : List Char)
    (hx : ¬ disclaimerHeading <:+: x) :
    stripDisclaimer (appendDisclaimer x) = x ++ "\n\n".data := by
  induction x with
  | nil =>
    show stripDisclaimer ([] ++ disclaimerTail) = [] ++ "\n\n".data
    rw [List.nil_append, List.nil_append]
    decide
  | cons c cs ih =>
    have hchars : ∀ k, 1 ≤ k → k < 14 → (disclaimerHeading.drop k).head? ≠ some '\n' := by
      decide
    have hnsw : ¬ (startsWith disclaimerHeading (c :: (cs ++ disclaimerTail)) = true ∧
        disclaimerHeading.length < (c :: (cs ++ disclaimerTail)).length) := by
      rintro ⟨hsw, -⟩
      obtain ⟨t, ht⟩ := (startsWith_iff _ _).mp hsw
      have htA : (c :: cs) ++ disclaimerTail = disclaimerHeading ++ t := by
        simpa using ht
      have hhl : disclaimerHeading.length = 14 := by decide
      by_cases hlen : 14 ≤ (c :: cs).length
      · have hpfx : disclaimerHeading <+: (c :: cs) := by
          rw [List.prefix_iff_eq_take, hhl]
          calc disclaimerHeading
              = ((c :: cs) ++ disclaimerTail).take 14 := by
                rw [htA, ← hhl, List.take_left]
            _ = (c :: cs).take 14 := List.take_append_of_le_length hlen
        exact hx hpfx.isInfix
      · have hn1 : 1 ≤ (c :: cs).length := by simp
        have hn14 : (c :: cs).length < 14 := by omega
        have hEq : disclaimerHeading
            = (c :: cs) ++ disclaimerTail.take (14 - (c :: cs).length) := by
          calc disclaimerHeading
              = ((c :: cs) ++ disclaimerTail).take 14 := by
                rw [htA, ← hhl, List.take_left]
            _ = (c :: cs).take 14 ++ disclaimerTail.take (14 - (c :: cs).length) := by
                rw [List.take_append_eq_append_take]
            _ = (c :: cs) ++ disclaimerTail.take (14 - (c :: cs).length) := by
                rw [List.take_of_length_le (by omega)]
        have hdrop : disclaimerHeading.drop (c :: cs).length
            = disclaimerTail.take (14 - (c :: cs).length) := by
          rw [hEq, List.drop_left]
        have hhead : (disclaimerTail.take (14 - (c :: cs).length)).head? = some '\n' := by
          rw [head?_take_pos (by omega)]
          decide
        exact hchars (c :: cs).length hn1 hn14 (by rw [hdrop, hhead])
    show stripDisclaimer (c :: (cs ++ disclaimerTail)) = (c :: cs) ++ "\n\n".data
    simp only [stripDisclaimer]
    rw [if_neg hnsw]
    rw [show stripDisclaimer (cs ++ disclaimerTail)
        = stripDisclaimer (appendDisclaimer cs) from rfl]
    rw [ih (fun hin => hx (List.infix_cons hin))]
    simp

/-- C4 witness: the amended round trip at the concrete input `"Hi"`. -/
theorem strip_append_roundtrip_amended_witness :
    stripDisclaimer (appendDisclaimer "Hi".data) = "Hi".data ++ "\n\n".data :=
  strip_append_roundtrip_amended "Hi".data (by decide)

theorem foldl_append_flatten (f : Comment → List Char) :
    ∀ (comments : List Comment) (init : List Char),
      comments.foldl (fun h c => h ++ f c) init = init ++ (comments.map f).flatten := by
  intro comments
  induction comments with
  | nil => intro init; simp
  | cons c cs ih =>
    intro init
    simp only [List.foldl_cons, List.map_cons, List.flatten_cons, ih, List.append_assoc]

/-- C5 counterexample: for the spec scenario turn
`{authorLogin: "alice", body: "Try X.\n\n### Disclaimer\n\n- blah"}` the
history compressor does not yield `"alice: Try X.\n"`: stripping removes
the heading and what follows but keeps the blank-line separator before it,
so the line is `"alice: Try X.\n\n"` and with the appended line break the
result is `"alice: Try X.\n\n\n"`. -/
theorem generateHistory_scenario_counterexample :
    generateHistory
        [Comment.mk (Author.mk "alice".data) "Try X.\n\n### Disclaimer\n\n- blah".data]
      ≠ "alice: Try X.\n".data ∧
    generateHistory
        [Comment.mk (Author.mk "alice".data) "Try X.\n\n### Disclaimer\n\n- blah".data]
      = "alice: Try X.\n\n\n".data :=
  ⟨by decide, by decide⟩

/-- C5 (amended): `generateHistory` emits one entry per turn in input
order, each of the exact form `<authorLogin>: <strippedBody>` followed by
one line break, where `strippedBody` is the body with everything from the
first disclaimer heading (that is followed by at least one character) to
the end removed — separators preceding the heading are kept; in particular
the spec scenario yields `"alice: Try X.\n\n\n"`. -/
theorem generateHistory_amended :
    (∀ comments : List Comment,
      generateHistory comments
        = (comments.map
            (fun c => c.author.login ++ ": ".data ++ stripDisclaimer c.body ++ "\n".data)).flatten) ∧
    generateHistory
        [Comment.mk (Author.mk "alice".data) "Try X.\n\n### Disclaimer\n\n- blah".data]
      = "alice: Try X.\n\n\n".data := by
  constructor
  · intro comments
    have h := foldl_append_flatten
      (fun c => c.author.login ++ ": ".data ++ stripDisclaimer c.body ++ "\n".data) comments []
    simpa [generateHistory] using h
  · decide

/-- C1: for every query vector, corpus, topN `k` and threshold `t`, the
ranker returns at most `k` candidates, every returned candidate's
dot-product score is strictly greater than `t` (strict, not ≥), and the
returned sequence is non-increasing by score. -/
theorem findMostSimilar_topN_threshold_sorted (q : List ℚ) (corpus : List Embedding)
    (k : ℕ) (t : ℚ) :
    (findMostSimilar q corpus k t).length ≤ k ∧
    (∀ e ∈ findMostSimilar q corpus k t, t < vectorSimilarity q e.embedding) ∧
    (findMostSimilar q corpus k t).Pairwise
      (fun e1 e2 => vectorSimilarity q e2.embedding ≤ vectorSimilarity q e1.embedding) := by
  have heq : findMostSimilar q corpus k t
      = ((((corpus.map (fun e => ScoredCandidate.mk e (vectorSimilarity q e.embedding))).insertionSort
            scoreOrder).filter (fun x => decide (t < x.similarity))).take k).map
          (fun x => x.embedding) := rfl
  have hmem : ∀ x, x ∈ ((((corpus.map
        (fun e => ScoredCandidate.mk e (vectorSimilarity q e.embedding))).insertionSort
        scoreOrder).filter (fun x => decide (t < x.similarity))).take k) →
      x.similarity = vectorSimilarity q x.embedding.embedding ∧ t < x.similarity := by
    intro x hx
    have hx1 := List.take_subset _ _ hx
    rw [List.mem_filter] at hx1
    obtain ⟨hx2, hx3⟩ := hx1
    simp only [List.mem_insertionSort] at hx2
    obtain ⟨e, he, rfl⟩ := List.mem_map.mp hx2
    exact ⟨rfl, of_decide_eq_true hx3⟩
  refine ⟨?_, ?_, ?_⟩
  · rw [heq, List.length_map, List.length_take]
    exact min_le_left _ _
  · intro e he
    rw [heq] at he
    obtain ⟨x, hxT, rfl⟩ := List.mem_map.mp he
    obtain ⟨hsim, hthr⟩ := hmem x hxT
    rw [← hsim]
    exact hthr
  · rw [heq, List.pairwise_map]
    have hs : ((corpus.map
        (fun e => ScoredCandidate.mk e (vectorSimilarity q e.embedding))).insertionSort
        scoreOrder).Pairwise scoreOrder :=
      List.sorted_insertionSort scoreOrder _
    have hfil := List.Pairwise.filter (fun x => decide (t < x.similarity)) hs
    have htake := List.Pairwise.sublist (List.take_sublist k _) hfil
    refine List.Pairwise.imp_of_mem ?_ htake
    intro a b ha hb hr
    obtain ⟨hsa, -⟩ := hmem a ha
    obtain ⟨hsb, -⟩ := hmem b hb
    rw [← hsa, ← hsb]
    exact hr

/-- C1 witness: a singleton corpus with unit vectors; the returned record
scores 1 > 0. -/
theorem findMostSimilar_topN_threshold_sorted_witness :
    (0 : ℚ) < vectorSimilarity [1] (Embedding.mk "a".data "c".data [1]).embedding := by
  have hcomp : findMostSimilar [1] [Embedding.mk "a".data "c".data [1]] 3 0
      = [Embedding.mk "a".data "c".data [1]] := by
    have hv : vectorSimilarity [1] [1] = 1 := by
      simp [vectorSimilarity, List.range_succ]
    simp [findMostSimilar, List.insertionSort, hv]
  have hmem : Embedding.mk "a".data "c".data [1]
      ∈ findMostSimilar [1] [Embedding.mk "a".data "c".data [1]] 3 0 := by
    rw [hcomp]
    exact List.mem_singleton.mpr rfl
  exact (findMostSimilar_topN_threshold_sorted [1]
    [Embedding.mk "a".data "c".data [1]] 3 0).2.1 _ hmem

theorem filter_orderedInsert (s : ℚ) (x : ScoredCandidate) (l : List ScoredCandidate) :
    (List.orderedInsert scoreOrder x l).filter (fun y => decide (y.similarity = s))
      = if x.similarity = s
        then x :: l.filter (fun y => decide (y.similarity = s))
        else l.filter (fun y => decide (y.similarity = s)) := by
  induction l with
  | nil =>
    by_cases hxs : x.similarity = s <;> simp [List.orderedInsert, hxs]
  | cons b l ih =>
    rw [List.orderedInsert]
    by_cases hr : scoreOrder x b
    · rw [if_pos hr]
      by_cases hxs : x.similarity = s <;> simp [List.filter_cons, hxs]
    · rw [if_neg hr]
      have hlt : x.similarity < b.similarity := not_le.mp hr
      by_cases hxs : x.similarity = s
      · have hbs : b.similarity ≠ s := by
          intro h
          rw [h, hxs] at hlt
          exact lt_irrefl s hlt
        simp [List.filter_cons, hxs, hbs, ih]
      · by_cases hbs : b.similarity = s <;> simp [List.filter_cons, hxs, hbs, ih]

theorem filter_insertionSort (s : ℚ) (l : List ScoredCandidate) :
    (l.insertionSort scoreOrder).filter (fun y => decide (y.similarity = s))
      = l.filter (fun y => decide (y.similarity = s)) := by
  induction l with
  | nil => simp
  | cons x l ih =>
    rw [List.insertionSort, filter_orderedInsert]
    by_cases hxs : x.similarity = s <;> simp [hxs, ih, List.filter_cons]

/-- C8: ranking is stable.  For every query, corpus, topN and threshold,
and every score value `s`, the candidates of the output whose score is `s`
form a prefix of the corpus's candidates with score `s`, in corpus order:
of two equal-scoring candidates, the one earlier in the corpus is returned
first (and is never skipped in favour of the later one). -/
theorem findMostSimilar_stable (q : List ℚ) (corpus : List Embedding) (k : ℕ) (t s : ℚ) :
    (findMostSimilar q corpus k t).filter
        (fun e => decide (vectorSimilarity q e.embedding = s))
      <+: corpus.filter (fun e => decide (vectorSimilarity q e.embedding = s)) := by
  have heq : findMostSimilar q corpus k t
      = ((((corpus.map (fun e => ScoredCandidate.mk e (vectorSimilarity q e.embedding))).insertionSort
            scoreOrder).filter (fun x => decide (t < x.similarity))).take k).map
          (fun x => x.embedding) := rfl
  rw [heq]
  rw [List.filter_map]
  have hcomp : ((fun e => decide (vectorSimilarity q e.embedding = s))
      ∘ (fun x : ScoredCandidate => x.embedding))
      = fun y : ScoredCandidate => decide (vectorSimilarity q y.embedding.embedding = s) := rfl
  rw [hcomp]
  -- the membership invariant lets the recomputed-score filter be replaced
  -- by the stored-score filter on every list drawn from the scored corpus
  have hinv : ∀ x : ScoredCandidate,
      x ∈ (corpus.map (fun e => ScoredCandidate.mk e (vectorSimilarity q e.embedding))) →
      x.similarity = vectorSimilarity q x.embedding.embedding := by
    intro x hx
    obtain ⟨e, he, rfl⟩ := List.mem_map.mp hx
    rfl
  have hcongr : ∀ (X : List ScoredCandidate),
      (∀ x ∈ X, x ∈ (corpus.map (fun e => ScoredCandidate.mk e (vectorSimilarity q e.embedding)))) →
      X.filter (fun y => decide (vectorSimilarity q y.embedding.embedding = s))
        = X.filter (fun y => decide (y.similarity = s)) := by
    intro X hX
    apply List.filter_congr
    intro y hy
    rw [hinv y (hX y hy)]
  have hsubT : ∀ x ∈ ((((corpus.map
        (fun e => ScoredCandidate.mk e (vectorSimilarity q e.embedding))).insertionSort
        scoreOrder).filter (fun x => decide (t < x.similarity))).take k),
      x ∈ (corpus.map (fun e => ScoredCandidate.mk e (vectorSimilarity q e.embedding))) := by
    intro x hx
    have hx1 := List.take_subset _ _ hx
    have hx2 := List.mem_of_mem_filter hx1
    simpa only [List.mem_insertionSort] using hx2
  rw [hcongr _ hsubT]
  by_cases hts : t < s
  · have hTF : ((((corpus.map
          (fun e => ScoredCandidate.mk e (vectorSimilarity q e.embedding))).insertionSort
          scoreOrder).filter (fun x => decide (t < x.similarity))).take k).filter
            (fun y => decide (y.similarity = s))
        <+: (((corpus.map
          (fun e => ScoredCandidate.mk e (vectorSimilarity q e.embedding))).insertionSort
          scoreOrder).filter (fun x => decide (t < x.similarity))).filter
            (fun y => decide (y.similarity = s)) :=
      List.IsPrefix.filter _ (List.take_prefix k _)
    have hFA : (((corpus.map
          (fun e => ScoredCandidate.mk e (vectorSimilarity q e.embedding))).insertionSort
          scoreOrder).filter (fun x => decide (t < x.similarity))).filter
            (fun y => decide (y.similarity = s))
        = ((corpus.map
          (fun e => ScoredCandidate.mk e (vectorSimilarity q e.embedding))).insertionSort
          scoreOrder).filter (fun y => decide (y.similarity = s)) := by
      rw [List.filter_filter]
      apply List.filter_congr
      intro y _
      by_cases hy : y.similarity = s
      · simp [hy, hts]
      · simp [hy]
    have hstab := filter_insertionSort s
      (corpus.map (fun e => ScoredCandidate.mk e (vectorSimilarity q e.embedding)))
    have hLC : (corpus.map
          (fun e => ScoredCandidate.mk e (vectorSimilarity q e.embedding))).filter
            (fun y => decide (y.similarity = s))
        = (corpus.filter (fun e => decide (vectorSimilarity q e.embedding = s))).map
            (fun e => ScoredCandidate.mk e (vectorSimilarity q e.embedding)) := by
      rw [List.filter_map]
      rfl
    have hchain := hTF
    rw [hFA, hstab, hLC] at hchain
    have hmapped := List.IsPrefix.map (fun x : ScoredCandidate => x.embedding) hchain
    rw [List.map_map] at hmapped
    have hid : ((fun x : ScoredCandidate => x.embedding)
        ∘ (fun e => ScoredCandidate.mk e (vectorSimilarity q e.embedding)))
        = fun e : Embedding => e := rfl
    rw [hid, List.map_id'] at hmapped
    exact hmapped
  · have hnil : ((((corpus.map
        (fun e => ScoredCandidate.mk e (vectorSimilarity q e.embedding))).insertionSort
        scoreOrder).filter (fun x => decide (t < x.similarity))).take k).filter
          (fun y => decide (y.similarity = s)) = [] := by
      rw [List.filter_eq_nil_iff]
      intro y hy
      have hy1 := List.take_subset _ _ hy
      rw [List.mem_filter] at hy1
      have hthr := of_decide_eq_true hy1.2
      intro hys
      have := of_decide_eq_true hys
      rw [this] at hthr
      exact hts hthr
    rw [hnil]
    exact List.nil_prefix

/-- C3: a run triggered by a plain `issues` or `discussion` event fetches
no comment history, so `conversationHistory` stays undefined and
`assemblePrompt` throws a `TypeError` inside `compressContent`; the
pipeline therefore always fails (with the `TypeError` whenever the
embedding call itself succeeded), the run takes the error/fallback path,
and nothing but the apology body is ever posted. -/
theorem plain_events_always_fallback (o : Oracles) (corpus : List Embedding) (p : Payload)
    (ev : EventName) (hev : ev = .issues ∨ ev = .discussion) :
    (∃ e, pipeline ev o corpus p = .error e) ∧
    (∀ v, o.embed = .ok v → pipeline ev o corpus p = .error typeErrorMsg) ∧
    (∀ d b, Action.post d b ∈ (main ev o p).trace → b = apologyBody) := by
  have hpipe : ∀ corpus' : List Embedding, ∃ e, pipeline ev o corpus' p = .error e := by
    intro corpus'
    rcases hev with rfl | rfl <;>
      cases he : o.embed with
      | error e => exact ⟨e, by simp only [pipeline, he]; rfl⟩
      | ok v => exact ⟨typeErrorMsg, by simp only [pipeline, he, assemblePromptJS]; rfl⟩
  refine ⟨hpipe corpus, ?_, ?_⟩
  · intro v hv
    rcases hev with rfl | rfl <;> (simp only [pipeline, hv, assemblePromptJS]; rfl)
  · intro d b hmem
    cases hcl : o.corpusLoad with
    | error e => simp [main, hcl] at hmem
    | ok corpus' =>
      obtain ⟨e, hpe⟩ := hpipe corpus'
      rcases hev with rfl | rfl
      · cases hap : o.postIssueApology with
        | ok u => simp [main, hcl, hpe, catchActions, hap] at hmem; exact hmem.2
        | error e2 => simp [main, hcl, hpe, catchActions, hap] at hmem
      · cases hap : o.postDiscussionApology with
        | ok u => simp [main, hcl, hpe, catchActions, hap] at hmem; exact hmem.2
        | error e2 => simp [main, hcl, hpe, catchActions, hap] at hmem

/-- C3 witness: the `issues` event with an all-successful oracle still has
a failing pipeline. -/
theorem plain_events_always_fallback_witness :
    ∃ e, pipeline .issues
        (Oracles.mk (.ok []) (.ok []) (.ok []) (.ok []) (.ok "A".data)
          (.ok ()) (.ok ()) (.ok ()) (.ok ()))
        [] (Payload.mk "q".data "q".data "q".data) = .error e :=
  (plain_events_always_fallback
    (Oracles.mk (.ok []) (.ok []) (.ok []) (.ok []) (.ok "A".data)
      (.ok ()) (.ok ()) (.ok ()) (.ok ()))
    [] (Payload.mk "q".data "q".data "q".data) .issues (Or.inl rfl)).1

/-- C10: for discussion-destined runs the comment post is issued without
`await`, on the answer path and on the apology path alike: `main` itself
never rejects (its error field stays `none` whatever the post outcomes),
a rejected answer post leaves the trace empty — no apology fallback, no
log, no failure mark — and on the failure path the run is marked failed
with the original pipeline error after logging it, independently of the
unawaited apology post's fate. -/
theorem discussion_post_fire_and_forget (o : Oracles) (p : Payload)
    (ev : EventName) (hev : ev = .discussion ∨ ev = .discussion_comment)
    (corpus : List Embedding) (hcl : o.corpusLoad = .ok corpus) :
    (main ev o p).mainError = none ∧
    (∀ a e2, pipeline ev o corpus p = .ok a → o.postDiscussionAnswer = .error e2 →
      (main ev o p).trace = []) ∧
    (∀ e, pipeline ev o corpus p = .error e →
      ∃ posts, (main ev o p).trace = posts ++ [.logError e, .markFailed e]) := by
  refine ⟨?_, ?_, ?_⟩
  · rcases hev with rfl | rfl <;>
      simp only [main, hcl] <;> split <;> simp [catchActions]
  · intro a e2 hpe hpost
    rcases hev with rfl | rfl <;> simp [main, hcl, hpe, hpost]
  · intro e hpe
    rcases hev with rfl | rfl <;>
      cases hap : o.postDiscussionApology with
      | ok u => exact ⟨[Action.post .discussion apologyBody], by simp [main, hcl, hpe, catchActions, hap]⟩
      | error e3 => exact ⟨[], by simp [main, hcl, hpe, catchActions, hap]⟩

/-- C10 witness: a successful `discussion_comment` pipeline whose
fire-and-forget answer post rejects; nothing is posted, logged or marked. -/
theorem discussion_post_fire_and_forget_witness :
    (main .discussion_comment
      (Oracles.mk (.ok []) (.ok []) (.ok []) (.ok []) (.ok "A".data)
        (.ok ()) (.ok ()) (.error "x".data) (.ok ()))
      (Payload.mk "q".data "q".data "q".data)).trace = [] :=
  (discussion_post_fire_and_forget
    (Oracles.mk (.ok []) (.ok []) (.ok []) (.ok []) (.ok "A".data)
      (.ok ()) (.ok ()) (.error "x".data) (.ok ()))
    (Payload.mk "q".data "q".data "q".data) .discussion_comment (Or.inr rfl)
    [] rfl).2.1 (appendDisclaimer "A".data) "x".data rfl rfl

/-- C2 counterexample: with an `issues` trigger, a failing embedding call
and a failing apology post, the run posts nothing at the determinable
destination (neither answer nor apology), logs nothing, and is not marked
failed — `main` rejects with the post error instead.  The claim's "exactly
one of two outcomes … never neither, and the run is marked failed" is
false for the code. -/
theorem main_fallback_counterexample :
    (main .issues
      (Oracles.mk (.ok []) (.error "boom".data) (.ok []) (.ok []) (.ok "A".data)
        (.ok ()) (.error "down".data) (.ok ()) (.ok ()))
      (Payload.mk "q".data "q".data "q".data)).trace = [] ∧
    (main .issues
      (Oracles.mk (.ok []) (.error "boom".data) (.ok []) (.ok []) (.ok "A".data)
        (.ok ()) (.error "down".data) (.ok ()) (.ok ()))
      (Payload.mk "q".data "q".data "q".data)).mainError = some "down".data :=
  ⟨rfl, rfl⟩

/-- C2 (amended): provided the corpus loads and every post attempt to the
event's destination succeeds (for discussions: the fire-and-forget call
resolves), each run with a determinable destination has exactly one of two
outcomes there — either the pipeline's answer is posted and the run is not
failed, or the fixed apology is posted, after which the original error is
logged and only then the run is marked failed; never both posts and never
neither.  (The counterexample shows the posting-success assumption cannot
be dropped.) -/
theorem main_outcome_exclusive (ev : EventName) (o : Oracles) (p : Payload)
    (corpus : List Embedding)
    (hev : ev = .issues ∨ ev = .issue_comment ∨ ev = .discussion ∨ ev = .discussion_comment)
    (hcl : o.corpusLoad = .ok corpus)
    (hA : o.postIssueAnswer = .ok ()) (hB : o.postIssueApology = .ok ())
    (hC : o.postDiscussionAnswer = .ok ()) (hD : o.postDiscussionApology = .ok ()) :
    (∃ a, pipeline ev o corpus p = .ok a ∧
      (main ev o p).trace = [.post (destOf ev) a] ∧ (main ev o p).mainError = none) ∨
    (∃ e, pipeline ev o corpus p = .error e ∧
      (main ev o p).trace = [.post (destOf ev) apologyBody, .logError e, .markFailed e] ∧
      (main ev o p).mainError = none) := by
  rcases hev with rfl | rfl | rfl | rfl <;>
    cases hpe : pipeline _ o corpus p with
    | ok a =>
      exact Or.inl ⟨a, rfl, by simp [main, hcl, hpe, hA, hC, destOf], by simp [main, hcl, hpe, hA, hC]⟩
    | error e =>
      exact Or.inr ⟨e, rfl, by simp [main, hcl, hpe, catchActions, hB, hD, destOf],
        by simp [main, hcl, hpe, catchActions, hB, hD]⟩

/-- C2 witness: the amended exclusivity at a concrete all-posting-success
run (an `issues` event, whose pipeline fails with the history TypeError,
so the apology branch of the disjunction is the one that holds). -/
theorem main_outcome_exclusive_witness :
    (∃ a, pipeline .issues
        (Oracles.mk (.ok []) (.ok []) (.ok []) (.ok []) (.ok "A".data)
          (.ok ()) (.ok ()) (.ok ()) (.ok ()))
        [] (Payload.mk "q".data "q".data "q".data) = .ok a ∧
      (main .issues
        (Oracles.mk (.ok []) (.ok []) (.ok []) (.ok []) (.ok "A".data)
          (.ok ()) (.ok ()) (.ok ()) (.ok ()))
        (Payload.mk "q".data "q".data "q".data)).trace = [.post (destOf .issues) a] ∧
      (main .issues
        (Oracles.mk (.ok []) (.ok []) (.ok []) (.ok []) (.ok "A".data)
          (.ok ()) (.ok ()) (.ok ()) (.ok ()))
        (Payload.mk "q".data "q".data "q".data)).mainError = none) ∨
    (∃ e, pipeline .issues
        (Oracles.mk (.ok []) (.ok []) (.ok []) (.ok []) (.ok "A".data)
          (.ok ()) (.ok ()) (.ok ()) (.ok ()))
        [] (Payload.mk "q".data "q".data "q".data) = .error e ∧
      (main .issues
        (Oracles.mk (.ok []) (.ok []) (.ok []) (.ok []) (.ok "A".data)
          (.ok ()) (.ok ()) (.ok ()) (.ok ()))
        (Payload.mk "q".data "q".data "q".data)).trace
          = [.post (destOf .issues) apologyBody, .logError e, .markFailed e] ∧
      (main .issues
        (Oracles.mk (.ok []) (.ok []) (.ok []) (.ok []) (.ok "A".data)
          (.ok ()) (.ok ()) (.ok ()) (.ok ()))
        (Payload.mk "q".data "q".data "q".data)).mainError = none) :=
  main_outcome_exclusive .issues
    (Oracles.mk (.ok []) (.ok []) (.ok []) (.ok []) (.ok "A".data)
      (.ok ()) (.ok ()) (.ok ()) (.ok ()))
    (Payload.mk "q".data "q".data "q".data) [] (Or.inl rfl) rfl rfl rfl rfl rfl

theorem getSubstitution_of_no_dollar (m b a : List Char) :
    ∀ r : List Char, '$' ∉ r → getSubstitution m b a r = r := by
  intro r
  induction r with
  | nil => intro _; rfl
  | cons c cs ih =>
    intro hr
    have hc : c ≠ '$' := fun hc => hr (by rw [hc]; exact List.mem_cons_self _ _)
    have hcs : '$' ∉ cs := fun hmem => hr (List.mem_cons_of_mem _ hmem)
    unfold getSubstitution
    rw [if_neg hc, ih hcs]

theorem replaceFirst_skip {pat : List Char} {ch : Char} (hx : pat.head? = some ch)
    (x y r : List Char) (hr : '$' ∉ r) (hch : ch ∉ x) {b a : List Char}
    (hy : findSub pat y = some (b, a)) :
    replaceFirst (x ++ y) pat r = (x ++ b) ++ r ++ a := by
  unfold replaceFirst
  rw [findSub_skip hx x y hch, hy]
  show (x ++ b) ++ getSubstitution pat (x ++ b) a r ++ a = (x ++ b) ++ r ++ a
  rw [getSubstitution_of_no_dollar pat (x ++ b) a r hr]

theorem replaceFirst_of_findSub {pat s b a : List Char} (hf : findSub pat s = some (b, a))
    (r : List Char) (hr : '$' ∉ r) : replaceFirst s pat r = b ++ r ++ a := by
  unfold replaceFirst
  rw [hf]
  show b ++ getSubstitution pat b a r ++ a = b ++ r ++ a
  rw [getSubstitution_of_no_dollar pat b a r hr]

theorem findSub_skip_drops {pat : List Char} :
    ∀ (x y : List Char),
      (∀ i, i < x.length → startsWith pat (x.drop i ++ y) = false) →
      findSub pat (x ++ y) = (findSub pat y).map (fun ba => (x ++ ba.1, ba.2)) := by
  intro x
  induction x with
  | nil =>
    intro y _
    cases hy : findSub pat y with
    | none => simp [hy]
    | some ba => simp [hy]
  | cons c cs ih =>
    intro y hx
    have h0 : startsWith pat ((c :: cs) ++ y) = false := hx 0 (by simp)
    have h0' : ¬ startsWith pat (c :: (cs ++ y)) = true := by
      rw [show c :: (cs ++ y) = (c :: cs) ++ y from rfl, h0]
      simp
    rw [show (c :: cs) ++ y = c :: (cs ++ y) from rfl]
    simp only [findSub]
    rw [if_neg h0']
    rw [ih y (fun i hi => by
      have := hx (i + 1) (by simp only [List.length_cons]; omega)
      simpa using this)]
    cases hy : findSub pat y with
    | none => simp [hy]
    | some ba => simp [hy]

/-- C7 counterexample: placeholder substitution is not restricted to the
template's own placeholder sites.  With a context record whose sanitized
content is the literal token `{{history}}`, the second `String.replace`
targets that token (the leftmost occurrence in the then-current string)
instead of the template's history placeholder, so the assembled prompt
differs from the spec-described result in which only the three template
placeholders are replaced and content tokens are left alone. -/
theorem assemblePrompt_capture_counterexample :
    assemblePrompt "Q".data
        [Embedding.mk "p".data "\x7b\x7bhistory\x7d\x7d".data []] "H".data
      ≠ assemblePromptSpec "Q".data
        [Embedding.mk "p".data "\x7b\x7bhistory\x7d\x7d".data []] "H".data := by
  have h1 : compressContent "\x7b\x7bhistory\x7d\x7d".data true
      = "\x7b\x7bhistory\x7d\x7d".data := by
    simp [compressContent, removeDelimited, findSub, startsWith, licenseOpen, licenseClose,
      normalizeNewlines, extractUsage, usageOpenTag, usageCloseTag, codeFence, removeLinkDefs,
      scanToCloseBracket, dropToNewline, commentOpen, commentClose, removeAllSub,
      removeSectionOpen, matchSectionOpenAt, sectionOpenStart, collapseNewlines, trimNewlines,
      collapseRunsOf]
  have h2 : compressContent "H".data false = "H".data := by
    simp [compressContent, removeDelimited, findSub, startsWith, licenseOpen, licenseClose,
      normalizeNewlines, extractUsage, usageOpenTag, usageCloseTag, codeFence, removeLinkDefs,
      scanToCloseBracket, dropToNewline, commentOpen, commentClose, removeAllSub,
      removeSectionOpen, matchSectionOpenAt, sectionOpenStart, collapseNewlines, trimNewlines,
      collapseRunsOf]
  have hF : filesSection [Embedding.mk "p".data "\x7b\x7bhistory\x7d\x7d".data []]
      = "Package: p\nText: ".data ++ historyPlaceholder := by
    simp only [filesSection, List.map_cons, List.map_nil, h1]
    decide
  have hfhead : filesPlaceholder.head? = some '\x7b' := rfl
  have hhhead : historyPlaceholder.head? = some '\x7b' := rfl
  have hqhead : questionPlaceholder.head? = some '\x7b' := rfl
  have hT : PROMPT_TEMPLATE
      = promptPrefix ++ (filesPlaceholder ++ ("\n\n".data ++ (historyPlaceholder ++
          ("\nQuestion: ".data ++ (questionPlaceholder ++ "\nAnswer:".data))))) := by decide
  have hnpp : '\x7b' ∉ promptPrefix := by decide
  have hif : (if compressContent "H".data false = [] then ([] : List Char) else
      "History:\n".data ++ compressContent "H".data false ++ "\n".data)
      = "History:\n".data ++ "H".data ++ "\n".data := by
    rw [h2]
    simp
  have hArw : assemblePrompt "Q".data
      [Embedding.mk "p".data "\x7b\x7bhistory\x7d\x7d".data []] "H".data
      = replaceFirst
          (replaceFirst
            (replaceFirst PROMPT_TEMPLATE filesPlaceholder
              ("Package: p\nText: ".data ++ historyPlaceholder))
            historyPlaceholder ("History:\n".data ++ "H".data ++ "\n".data))
          questionPlaceholder "Q".data := by
    simp only [assemblePrompt, hif, hF]
  -- step 1: the files placeholder site receives the token-carrying content
  have e1 : replaceFirst PROMPT_TEMPLATE filesPlaceholder
        ("Package: p\nText: ".data ++ historyPlaceholder)
      = (promptPrefix ++ ([] : List Char)) ++
          ("Package: p\nText: ".data ++ historyPlaceholder) ++
          ("\n\n".data ++ (historyPlaceholder ++
            ("\nQuestion: ".data ++ (questionPlaceholder ++ "\nAnswer:".data)))) := by
    rw [hT]
    exact replaceFirst_skip hfhead promptPrefix _ _ (by decide) hnpp
      (findSub_at_head (by decide) _)
  have regroup1 : (promptPrefix ++ ([] : List Char)) ++
        ("Package: p\nText: ".data ++ historyPlaceholder) ++
        ("\n\n".data ++ (historyPlaceholder ++
          ("\nQuestion: ".data ++ (questionPlaceholder ++ "\nAnswer:".data))))
      = (promptPrefix ++ "Package: p\nText: ".data) ++
          (historyPlaceholder ++ ("\n\n".data ++ (historyPlaceholder ++
            ("\nQuestion: ".data ++ (questionPlaceholder ++ "\nAnswer:".data))))) := by
    simp [List.append_assoc]
  -- step 2: the history replacement hits the token inside the files text
  have hX2 : '\x7b' ∉ promptPrefix ++ "Package: p\nText: ".data := by
    intro hmem
    rcases List.mem_append.mp hmem with hmem2 | hmem2
    · exact hnpp hmem2
    · exact absurd hmem2 (by decide)
  have e2 : replaceFirst
        ((promptPrefix ++ "Package: p\nText: ".data) ++
          (historyPlaceholder ++ ("\n\n".data ++ (historyPlaceholder ++
            ("\nQuestion: ".data ++ (questionPlaceholder ++ "\nAnswer:".data))))))
        historyPlaceholder ("History:\n".data ++ "H".data ++ "\n".data)
      = ((promptPrefix ++ "Package: p\nText: ".data) ++ ([] : List Char)) ++
          ("History:\n".data ++ "H".data ++ "\n".data) ++
          ("\n\n".data ++ (historyPlaceholder ++
            ("\nQuestion: ".data ++ (questionPlaceholder ++ "\nAnswer:".data)))) :=
    replaceFirst_skip hhhead (promptPrefix ++ "Package: p\nText: ".data) _ _ (by decide) hX2
      (findSub_at_head (by decide) _)
  have regroup2 : ((promptPrefix ++ "Package: p\nText: ".data) ++ ([] : List Char)) ++
        ("History:\n".data ++ "H".data ++ "\n".data) ++
        ("\n\n".data ++ (historyPlaceholder ++
          ("\nQuestion: ".data ++ (questionPlaceholder ++ "\nAnswer:".data))))
      = (promptPrefix ++ "Package: p\nText: ".data ++
          ("History:\n".data ++ "H".data ++ "\n".data) ++ "\n\n".data) ++
          (historyPlaceholder ++ ("\nQuestion: ".data ++
            (questionPlaceholder ++ "\nAnswer:".data))) := by
    simp [List.append_assoc]
  -- step 3: the question placeholder site (the template's own) is found by
  -- stepping over the surviving history placeholder token
  have hW : '\x7b' ∉ promptPrefix ++ "Package: p\nText: ".data ++
      ("History:\n".data ++ "H".data ++ "\n".data) ++ "\n\n".data := by
    intro hmem
    rcases List.mem_append.mp hmem with hmem2 | hmem2
    · rcases List.mem_append.mp hmem2 with hmem3 | hmem3
      · rcases List.mem_append.mp hmem3 with hmem4 | hmem4
        · exact hnpp hmem4
        · exact absurd hmem4 (by decide)
      · exact absurd hmem3 (by decide)
    · exact absurd hmem2 (by decide)
  have hinner2 : findSub questionPlaceholder
        ("\nQuestion: ".data ++ (questionPlaceholder ++ "\nAnswer:".data))
      = some ("\nQuestion: ".data ++ ([] : List Char), "\nAnswer:".data) := by
    rw [findSub_skip hqhead "\nQuestion: ".data _ (by decide),
      findSub_at_head (by decide) _]
    rfl
  have hinner1 : findSub questionPlaceholder
        (historyPlaceholder ++ ("\nQuestion: ".data ++
          (questionPlaceholder ++ "\nAnswer:".data)))
      = some (historyPlaceholder ++ ("\nQuestion: ".data ++ ([] : List Char)),
          "\nAnswer:".data) := by
    rw [findSub_skip_drops historyPlaceholder _ (by decide), hinner2]
    rfl
  have hfind3 : findSub questionPlaceholder
        ((promptPrefix ++ "Package: p\nText: ".data ++
          ("History:\n".data ++ "H".data ++ "\n".data) ++ "\n\n".data) ++
          (historyPlaceholder ++ ("\nQuestion: ".data ++
            (questionPlaceholder ++ "\nAnswer:".data))))
      = some ((promptPrefix ++ "Package: p\nText: ".data ++
          ("History:\n".data ++ "H".data ++ "\n".data) ++ "\n\n".data) ++
          (historyPlaceholder ++ ("\nQuestion: ".data ++ ([] : List Char))),
          "\nAnswer:".data) := by
    rw [findSub_skip hqhead _ _ hW, hinner1]
    rfl
  have e3 : replaceFirst
        ((promptPrefix ++ "Package: p\nText: ".data ++
          ("History:\n".data ++ "H".data ++ "\n".data) ++ "\n\n".data) ++
          (historyPlaceholder ++ ("\nQuestion: ".data ++
            (questionPlaceholder ++ "\nAnswer:".data))))
        questionPlaceholder "Q".data
      = ((promptPrefix ++ "Package: p\nText: ".data ++
          ("History:\n".data ++ "H".data ++ "\n".data) ++ "\n\n".data) ++
          (historyPlaceholder ++ ("\nQuestion: ".data ++ ([] : List Char)))) ++
          "Q".data ++ "\nAnswer:".data :=
    replaceFirst_of_findSub hfind3 "Q".data (by decide)
  have hspec : assemblePromptSpec "Q".data
      [Embedding.mk "p".data "\x7b\x7bhistory\x7d\x7d".data []] "H".data
      = promptPrefix ++ ("Package: p\nText: ".data ++ historyPlaceholder) ++
          "\n\n".data ++ ("History:\n".data ++ "H".data ++ "\n".data) ++
          "\nQuestion: ".data ++ "Q".data ++ "\nAnswer:".data := by
    simp only [assemblePromptSpec, hif, hF]
  rw [hArw, e1, regroup1, e2, regroup2, e3, hspec]
  decide

/-- C7 (amended): substitution is sequential, first-occurrence and
single-pass.  When the rendered files section and the compressed history
contain no `{` character (in particular no placeholder-looking token), the
three replacements land exactly on the template's own placeholder sites;
and when the substituted texts — files section, history and question —
also contain no `$` character (so `GetSubstitution` finds no `$$`, `$&`,
`` $` `` or `$'` pattern to interpret), each is inserted verbatim and never
re-scanned.  When substituted content does contain a placeholder-looking
token before the template's own placeholder, that earlier occurrence is
targeted instead (see the counterexample); a `$`-pattern in a substituted
text is likewise interpreted rather than copied. -/
theorem assemblePrompt_verbatim (q h : List Char) (ms : List Embedding)
    (hF : '\x7b' ∉ filesSection ms) (hH : '\x7b' ∉ compressContent h false)
    (hFd : '$' ∉ filesSection ms) (hHd : '$' ∉ compressContent h false)
    (hq : '$' ∉ q) :
    assemblePrompt q ms h
      = promptPrefix ++ filesSection ms ++ "\n\n".data ++
        (if compressContent h false = [] then [] else
          "History:\n".data ++ compressContent h false ++ "\n".data) ++
        "\nQuestion: ".data ++ q ++ "\nAnswer:".data := by
  have hfhead : filesPlaceholder.head? = some '\x7b' := rfl
  have hhhead : historyPlaceholder.head? = some '\x7b' := rfl
  have hqhead : questionPlaceholder.head? = some '\x7b' := rfl
  have hT : PROMPT_TEMPLATE
      = promptPrefix ++ (filesPlaceholder ++ ("\n\n".data ++ (historyPlaceholder ++
          ("\nQuestion: ".data ++ (questionPlaceholder ++ "\nAnswer:".data))))) := by decide
  have hnpp : '\x7b' ∉ promptPrefix := by decide
  have hHs : '\x7b' ∉ (if compressContent h false = [] then ([] : List Char) else
      "History:\n".data ++ compressContent h false ++ "\n".data) := by
    by_cases hc : compressContent h false = []
    · simp [hc]
    · rw [if_neg hc]
      intro hmem
      rcases List.mem_append.mp hmem with hmem2 | hmem2
      · rcases List.mem_append.mp hmem2 with hmem3 | hmem3
        · exact absurd hmem3 (by decide)
        · exact hH hmem3
      · exact absurd hmem2 (by decide)
  have hHsd : '$' ∉ (if compressContent h false = [] then ([] : List Char) else
      "History:\n".data ++ compressContent h false ++ "\n".data) := by
    by_cases hc : compressContent h false = []
    · simp [hc]
    · rw [if_neg hc]
      intro hmem
      rcases List.mem_append.mp hmem with hmem2 | hmem2
      · rcases List.mem_append.mp hmem2 with hmem3 | hmem3
        · exact absurd hmem3 (by decide)
        · exact hHd hmem3
      · exact absurd hmem2 (by decide)
  -- step 1: the files placeholder is replaced at the template's own site
  have hstep1 : replaceFirst PROMPT_TEMPLATE filesPlaceholder (filesSection ms)
      = (promptPrefix ++ filesSection ms) ++ ("\n\n".data ++ (historyPlaceholder ++
          ("\nQuestion: ".data ++ (questionPlaceholder ++ "\nAnswer:".data)))) := by
    rw [hT]
    have := replaceFirst_skip hfhead promptPrefix
      (filesPlaceholder ++ ("\n\n".data ++ (historyPlaceholder ++
        ("\nQuestion: ".data ++ (questionPlaceholder ++ "\nAnswer:".data)))))
      (filesSection ms) hFd hnpp
      (findSub_at_head (by decide) _)
    rw [this]
    simp [List.append_assoc]
  -- step 2: the history placeholder is replaced at the template's own site
  have hstep2 : replaceFirst
        ((promptPrefix ++ filesSection ms) ++ ("\n\n".data ++ (historyPlaceholder ++
          ("\nQuestion: ".data ++ (questionPlaceholder ++ "\nAnswer:".data)))))
        historyPlaceholder
        (if compressContent h false = [] then [] else
          "History:\n".data ++ compressContent h false ++ "\n".data)
      = ((promptPrefix ++ filesSection ms ++ "\n\n".data) ++
          (if compressContent h false = [] then [] else
            "History:\n".data ++ compressContent h false ++ "\n".data)) ++
        ("\nQuestion: ".data ++ (questionPlaceholder ++ "\nAnswer:".data)) := by
    have hx : '\x7b' ∉ (promptPrefix ++ filesSection ms) ++ "\n\n".data := by
      intro hmem
      rcases List.mem_append.mp hmem with hmem2 | hmem2
      · rcases List.mem_append.mp hmem2 with hmem3 | hmem3
        · exact hnpp hmem3
        · exact hF hmem3
      · exact absurd hmem2 (by decide)
    have harg : (promptPrefix ++ filesSection ms) ++ ("\n\n".data ++ (historyPlaceholder ++
          ("\nQuestion: ".data ++ (questionPlaceholder ++ "\nAnswer:".data))))
        = ((promptPrefix ++ filesSection ms) ++ "\n\n".data) ++ (historyPlaceholder ++
          ("\nQuestion: ".data ++ (questionPlaceholder ++ "\nAnswer:".data))) := by
      simp [List.append_assoc]
    rw [harg]
    have := replaceFirst_skip hhhead ((promptPrefix ++ filesSection ms) ++ "\n\n".data)
      (historyPlaceholder ++ ("\nQuestion: ".data ++ (questionPlaceholder ++ "\nAnswer:".data)))
      (if compressContent h false = [] then [] else
        "History:\n".data ++ compressContent h false ++ "\n".data)
      hHsd hx (findSub_at_head (by decide) _)
    rw [this]
    simp [List.append_assoc]
  -- step 3: the question placeholder is replaced at the template's own site
  have hstep3 : replaceFirst
        (((promptPrefix ++ filesSection ms ++ "\n\n".data) ++
          (if compressContent h false = [] then [] else
            "History:\n".data ++ compressContent h false ++ "\n".data)) ++
          ("\nQuestion: ".data ++ (questionPlaceholder ++ "\nAnswer:".data)))
        questionPlaceholder q
      = ((((promptPrefix ++ filesSection ms ++ "\n\n".data) ++
          (if compressContent h false = [] then [] else
            "History:\n".data ++ compressContent h false ++ "\n".data)) ++
          "\nQuestion: ".data) ++ q) ++ "\nAnswer:".data := by
    have hx : '\x7b' ∉ ((promptPrefix ++ filesSection ms ++ "\n\n".data) ++
        (if compressContent h false = [] then [] else
          "History:\n".data ++ compressContent h false ++ "\n".data)) ++
        "\nQuestion: ".data := by
      intro hmem
      rcases List.mem_append.mp hmem with hmem2 | hmem2
      · rcases List.mem_append.mp hmem2 with hmem3 | hmem3
        · rcases List.mem_append.mp hmem3 with hmem4 | hmem4
          · rcases List.mem_append.mp hmem4 with hmem5 | hmem5
            · exact hnpp hmem5
            · exact hF hmem5
          · exact absurd hmem4 (by decide)
        · exact hHs hmem3
      · exact absurd hmem2 (by decide)
    have harg : (((promptPrefix ++ filesSection ms ++ "\n\n".data) ++
          (if compressContent h false = [] then [] else
            "History:\n".data ++ compressContent h false ++ "\n".data)) ++
          ("\nQuestion: ".data ++ (questionPlaceholder ++ "\nAnswer:".data)))
        = ((((promptPrefix ++ filesSection ms ++ "\n\n".data) ++
          (if compressContent h false = [] then [] else
            "History:\n".data ++ compressContent h false ++ "\n".data)) ++
          "\nQuestion: ".data) ++ (questionPlaceholder ++ "\nAnswer:".data)) := by
      simp [List.append_assoc]
    rw [harg]
    have := replaceFirst_skip hqhead
      ((((promptPrefix ++ filesSection ms ++ "\n\n".data) ++
        (if compressContent h false = [] then [] else
          "History:\n".data ++ compressContent h false ++ "\n".data)) ++
        "\nQuestion: ".data))
      (questionPlaceholder ++ "\nAnswer:".data) q hq hx (findSub_at_head (by decide) _)
    rw [this]
    simp [List.append_assoc]
  show replaceFirst
      (replaceFirst
        (replaceFirst PROMPT_TEMPLATE filesPlaceholder (filesSection ms))
        historyPlaceholder
        (if compressContent h false = [] then [] else
          "History:\n".data ++ compressContent h false ++ "\n".data))
      questionPlaceholder q = _
  rw [hstep1, hstep2, hstep3]

/-- C7 witness: with an empty context set, an empty history and a `$`-free
question (all brace- and dollar-free) the assembled prompt is exactly the
template with its three placeholder sites filled verbatim. -/
theorem assemblePrompt_verbatim_witness :
    assemblePrompt "Q".data [] "".data
      = promptPrefix ++ filesSection [] ++ "\n\n".data ++
        (if compressContent "".data false = [] then [] else
          "History:\n".data ++ compressContent "".data false ++ "\n".data) ++
        "\nQuestion: ".data ++ "Q".data ++ "\nAnswer:".data := by
  have hcc : compressContent "".data false = [] := by
    simp [compressContent, removeDelimited, findSub, startsWith, licenseOpen, licenseClose,
      normalizeNewlines, extractUsage, usageOpenTag, usageCloseTag, removeLinkDefs,
      scanToCloseBracket, dropToNewline, commentOpen, commentClose, removeAllSub,
      removeSectionOpen, matchSectionOpenAt, sectionOpenStart, collapseNewlines,
      trimNewlines, collapseRunsOf]
  exact assemblePrompt_verbatim "Q".data "".data [] (by decide) (by simp [hcc])
    (by decide) (by simp [hcc]) (by decide)

end StdlibBot
